import Mathlib

/-!
Verification of the `collect` repository (src/collect.go): a shallow
embedding of its pattern matching, directory walk, per-file processing and
budgeted concurrent accumulation, with theorems about the claims of the
specification.

Strings are modelled as `List Char`. Go decodes runes from names and reads
bytes from patterns; on the ASCII inputs used throughout, the byte view and
the rune view coincide, so one character of the model stands for one
byte/rune of the Go code. The path separator is '/' (unix build).
-/

/-- Model of a Go string: a list of characters. -/
abbrev GoStr := List Char

/-- `strings.Contains(s, sub)`: `sub` occurs as a contiguous sublist of `s`. -/
def goContains : GoStr → GoStr → Bool
  | [], sub => sub == []
  | c :: t, sub => sub.isPrefixOf (c :: t) || goContains t sub

/-- `strings.HasSuffix(s, suffix)`. -/
def goHasSuffix (s suf : GoStr) : Bool :=
  suf.isSuffixOf s

/-- `filepath.Base(path)` (unix): strip trailing separators, keep the part
after the last separator; "." for the empty path, "/" if only separators. -/
def goBase (path : GoStr) : GoStr :=
  if path = [] then ['.']
  else
    let p := (path.reverse.dropWhile (fun c => c == '/')).reverse
    if p = [] then ['/']
    else (p.reverse.takeWhile (fun c => c != '/')).reverse

/-- The leading-star scan of Go's `scanChunk`: strip all leading '*',
report whether there was at least one. -/
def stripStars : GoStr → Bool × GoStr
  | [] => (false, [])
  | c :: cs => if c = '*' then (true, (stripStars cs).2) else (false, c :: cs)

/-- Body scan of Go's `scanChunk`: copy pattern characters into the chunk
until a top-level '*', tracking bracket nesting (`inrange`) and skipping the
character after a backslash. -/
def scanChunkCore : GoStr → Bool → GoStr × GoStr
  | [], _ => ([], [])
  | c :: cs, inrange =>
    if c = '*' ∧ inrange = false then ([], c :: cs)
    else if c = '\\' then
      match cs with
      | [] => ([c], [])
      | d :: ds =>
        let r := scanChunkCore ds inrange
        (c :: d :: r.1, r.2)
    else
      let inrange2 := if c = '[' then true else if c = ']' then false else inrange
      let r := scanChunkCore cs inrange2
      (c :: r.1, r.2)

/-- Go's `scanChunk`: split a pattern into a leading-star flag, the first
chunk, and the rest of the pattern. -/
def scanChunk (pattern : GoStr) : Bool × GoStr × GoStr :=
  let s := stripStars pattern
  let r := scanChunkCore s.2 false
  (s.1, r.1, r.2)

/-- Go's `getEsc`: read one (possibly escaped) character of a bracket class.
`none` models `ErrBadPattern`; note Go also errors when the class would end
immediately after the character. -/
def getEsc : GoStr → Option (Char × GoStr)
  | [] => none
  | c :: cs =>
    if c = '-' ∨ c = ']' then none
    else if c = '\\' then
      match cs with
      | [] => none
      | d :: ds => if ds = [] then none else some (d, ds)
    else if cs = [] then none
    else some (c, cs)

/-- The range-parsing loop inside Go's `matchChunk` bracket case: consume
`lo`(-`hi`) ranges until the closing ']', recording whether rune `r` fell in
any range. `none` models `ErrBadPattern`. The fuel bounds the number of loop
iterations; every iteration consumes at least one pattern character, so the
callers' fuel is never exhausted. -/
def matchRanges : Nat → GoStr → Char → Bool → Nat → Option (GoStr × Bool)
  | 0, _, _, _, _ => none
  | fuel + 1, chunk, r, m, nrange =>
    match chunk with
    | ']' :: rest =>
      if nrange > 0 then some (rest, m)
      else none
    | _ =>
      match getEsc chunk with
      | none => none
      | some (lo, chunk1) =>
        match chunk1 with
        | '-' :: chunk1' =>
          match getEsc chunk1' with
          | none => none
          | some (hi, chunk2) =>
            matchRanges fuel chunk2 r (m || decide (lo ≤ r ∧ r ≤ hi)) (nrange + 1)
        | _ => matchRanges fuel chunk1 r (m || decide (lo ≤ r ∧ r ≤ lo)) (nrange + 1)

/-- Go's `matchChunk` (unix): match a chunk against the head of `s`,
carrying the `failed` flag so that the rest of the chunk is still checked
for well-formedness after a mismatch. Returns the unmatched rest of `s` and
whether the chunk matched; `none` models `ErrBadPattern`. -/
def matchChunkAux : Nat → GoStr → GoStr → Bool → Option (GoStr × Bool)
  | 0, _, _, _ => none
  | fuel + 1, chunk, s, failed0 =>
    match chunk with
    | [] => if failed0 then some ([], false) else some (s, true)
    | c :: chunkRest =>
      let failed := failed0 || s.isEmpty
      if c = '[' then
        let r := if failed then Char.ofNat 0 else s.headD (Char.ofNat 0)
        let s2 := if failed then s else s.tail
        let pr : Bool × GoStr :=
          match chunkRest with
          | '^' :: t => (true, t)
          | t => (false, t)
        match matchRanges fuel pr.2 r false 0 with
        | none => none
        | some (chunk2, m) => matchChunkAux fuel chunk2 s2 (failed || (m == pr.1))
      else if c = '?' then
        if failed then matchChunkAux fuel chunkRest s failed
        else matchChunkAux fuel chunkRest s.tail (s.headD (Char.ofNat 0) == '/')
      else if c = '\\' then
        match chunkRest with
        | [] => none
        | d :: rest2 =>
          if failed then matchChunkAux fuel rest2 s failed
          else matchChunkAux fuel rest2 s.tail (d != s.headD (Char.ofNat 0))
      else
        if failed then matchChunkAux fuel chunkRest s failed
        else matchChunkAux fuel chunkRest s.tail (c != s.headD (Char.ofNat 0))

/-- Go's `matchChunk` at adequate fuel: each loop iteration consumes at
least one chunk character, so `2 * |chunk| + 2` iterations always suffice. -/
def matchChunk (chunk s : GoStr) : Option (GoStr × Bool) :=
  matchChunkAux (2 * chunk.length + 2) chunk s false

/-- One combined step function for Go's `Match`: `Sum.inl (pattern, name)`
is the head of the outer `Pattern` loop; `Sum.inr (chunk, pat2, cursor)` is
the inner star loop that retries `matchChunk` after skipping one leading
character of the cursor (never skipping past a '/'). `none` models
`ErrBadPattern`. -/
def goMatchAux : Nat → (GoStr × GoStr) ⊕ (GoStr × GoStr × GoStr) → Option Bool
  | 0, _ => none
  | fuel + 1, Sum.inl (pattern, name) =>
    if pattern = [] then some name.isEmpty
    else
      let sc := scanChunk pattern
      let star := sc.1
      let chunk := sc.2.1
      let pat2 := sc.2.2
      if star ∧ chunk = [] then some (!(name.contains '/'))
      else
        match matchChunk chunk name with
        | none => none
        | some (t, ok) =>
          if ok ∧ (t = [] ∨ pat2 ≠ []) then goMatchAux fuel (Sum.inl (pat2, t))
          else if star then goMatchAux fuel (Sum.inr (chunk, pat2, name))
          else some false
  | fuel + 1, Sum.inr (chunk, pat2, cursor) =>
    match cursor with
    | [] => some false
    | c :: rest =>
      if c = '/' then some false
      else
        match matchChunk chunk rest with
        | none => none
        | some (t, ok) =>
          if ok then
            if pat2 = [] ∧ t ≠ [] then goMatchAux fuel (Sum.inr (chunk, pat2, rest))
            else goMatchAux fuel (Sum.inl (pat2, t))
          else goMatchAux fuel (Sum.inr (chunk, pat2, rest))

/-- `filepath.Match(pattern, name)` (unix). `none` models `ErrBadPattern`.
The outer loop runs at most `|pattern| + 1` times and each inner star loop
at most `|name| + 1` times, so the fuel is never exhausted. -/
def filepathMatch (pattern name : GoStr) : Option Bool :=
  goMatchAux ((pattern.length + 2) * (name.length + 2)) (Sum.inl (pattern, name))

/-- `isIgnored` from src/collect.go: for each pattern, glob-match it against
the base name; on `ErrBadPattern` `continue` to the next pattern; otherwise
the path is ignored if the glob matched or the pattern is a substring of the
path. -/
def isIgnored (path : GoStr) (ignorePatterns : List GoStr) : Bool :=
  match ignorePatterns with
  | [] => false
  | pat :: rest =>
    match filepathMatch pat (goBase path) with
    | none => isIgnored path rest
    | some m => if m || goContains path pat then true else isIgnored path rest

/-- The pattern loop of `isIncluded` from src/collect.go: glob-match against
the base name (skipping the pattern on `ErrBadPattern`), or the path ends
with the literal pattern. -/
def includedAny (path : GoStr) : List GoStr → Bool
  | [] => false
  | pat :: rest =>
    match filepathMatch pat (goBase path) with
    | none => includedAny path rest
    | some m => if m || goHasSuffix path pat then true else includedAny path rest

/-- `isIncluded` from src/collect.go: an empty pattern list includes
everything. -/
def isIncluded (path : GoStr) (includePatterns : List GoStr) : Bool :=
  if includePatterns.isEmpty then true else includedAny path includePatterns

/-- A node of the scanned directory tree. `readErr` on a directory models
`os.ReadDir` failing for it during `filepath.WalkDir`. -/
inductive Entry : Type where
  | file : GoStr → Entry
  | dir : GoStr → Bool → List Entry → Entry

/-- Name of a tree node. -/
def entryName : Entry → GoStr
  | .file n => n
  | .dir n _ _ => n

/-- Relative path of a child, as produced by `filepath.Rel(rootDir, path)`
in the walk callback: children of the root (relative path ".") get their own
name, deeper nodes get `parent ++ "/" ++ name`. -/
def childRel (rel name : GoStr) : GoStr :=
  if rel = ['.'] then name else rel ++ '/' :: name

/-- The discovery walk of `collectFilesContent` (src/collect.go:134-157),
specialised to its `filepath.WalkDir` callback, as a worklist recursion over
frames `(node, relativePath)`; children are pushed in front of the remaining
frames, giving `WalkDir`'s depth-first order. Returns the relative paths
appended to `files` and whether the walk aborted with an error. Per Go's
`WalkDir`: a directory whose relative path `isIgnored` is pruned
(`SkipDir`); a `ReadDir` failure is handed to the callback, which returns
the error, aborting the entire remaining walk while keeping the files
already collected; a file is appended iff it is not ignored and is
included. The fuel counts popped frames, one per visited node, so any fuel
larger than the tree size is never exhausted (exhaustion returns the
aborted result). -/
def walkF (ign inc : List GoStr) : Nat → List (Entry × GoStr) → List GoStr × Bool
  | 0, _ => ([], true)
  | _ + 1, [] => ([], false)
  | fuel + 1, (Entry.file _, rel) :: rest =>
    let r := walkF ign inc fuel rest
    if isIgnored rel ign then r
    else if isIncluded rel inc then (rel :: r.1, r.2)
    else r
  | fuel + 1, (Entry.dir _ rErr children, rel) :: rest =>
    if isIgnored rel ign then walkF ign inc fuel rest
    else if rErr then ([], true)
    else walkF ign inc fuel (children.map (fun c => (c, childRel rel (entryName c))) ++ rest)

/-- The discovery phase of `collectFilesContent`: walk the root (relative
path "."), returning the candidate list and whether an enumeration error
aborted the walk (the error is only logged; the run continues with the
candidates gathered so far). -/
def collectCandidates (ign inc : List GoStr) (fuel : Nat) (root : Entry) : List GoStr × Bool :=
  walkF ign inc fuel [(root, ['.'])]

/-- `maxTotalTokens` from src/collect.go. -/
def maxTotalTokens : Nat := 50000

/-- `maxFileSize` from src/collect.go (1 MiB). -/
def maxFileSize : Nat := 1 * 1024 * 1024

/-- A candidate file as seen by `processFile`: its relative path, the size
reported by `os.Stat`, its content bytes, and flags injecting the possible
I/O failures (stat, open, scanner read). -/
structure GoFile where
  relPath : GoStr
  size : Nat
  content : List Nat
  statErr : Bool
  openErr : Bool
  readErr : Bool
deriving DecidableEq

/-- `dropCR` of `bufio.ScanLines`: remove one trailing '\r' byte. -/
def dropCR (l : List Nat) : List Nat :=
  if l.getLast? = some 13 then l.dropLast else l

/-- The lines produced by a `bufio.Scanner` with the default `ScanLines`
split: split the bytes at each newline, with no empty final token when the
input ends in a newline, and a trailing '\r' stripped from each line. -/
def scanLines (bs : List Nat) : List (List Nat) :=
  if bs = [] then []
  else
    let pieces := bs.splitOn 10
    let pieces := if bs.getLast? = some 10 then pieces.dropLast else pieces
    pieces.map dropCR

/-- Bytes rendered as model characters (ASCII view). -/
def bytesToStr (bs : List Nat) : GoStr :=
  bs.map (fun b => Char.ofNat b)

/-- The formatted text `processFile` builds for an accepted file: a
`"File: <relativePath>\n"` header, each scanned line followed by a newline,
and a trailing blank line. -/
def formatFile (rel : GoStr) (bs : List Nat) : GoStr :=
  ("File: ").toList ++ rel ++ '\n' :: ((scanLines bs).map (fun l => bytesToStr l ++ ['\n'])).flatten ++ ['\n']

/-- `processFile` from src/collect.go:208-249, parameterised by the
tokenizer `tok` (`countTokens`, an external collaborator). A stat failure is
an error; a file larger than `maxFileSize` is skipped with an empty result;
`isBinaryFile` then opens the file (an open failure is an error, and the
same flag stands for the second open) and skips the file when a NUL byte
occurs among the first 8000 content bytes; a scanner failure on the full
read is an error; otherwise the formatted text and its token count are
returned. -/
def processFile (tok : GoStr → Nat) (f : GoFile) : Except GoStr (GoStr × Nat) :=
  if f.statErr then .error (("Error stating file").toList)
  else if f.size > maxFileSize then .ok ([], 0)
  else if f.openErr then .error (("Error checking if file is binary").toList)
  else if (f.content.take 8000).any (fun b => b == 0) then .ok ([], 0)
  else if f.readErr then .error (("Error reading file").toList)
  else
    let text := formatFile f.relPath f.content
    .ok (text, tok text)

/-- The formatted text of a file whose `processFile` succeeded. -/
def okText (tok : GoStr → Nat) (f : GoFile) : GoStr :=
  match processFile tok f with
  | .ok p => p.1
  | .error _ => []

/-- The token count of a file whose `processFile` succeeded. -/
def okTok (tok : GoStr → Nat) (f : GoFile) : Nat :=
  match processFile tok f with
  | .ok p => p.2
  | .error _ => 0

/-- `maxGoroutines` from src/collect.go. -/
def maxGoroutines : Nat := 10

/-- A state of the concurrent processing phase of `collectFilesContent`
(src/collect.go:163-201). `queue` is the part of the candidate list the
dispatch loop has not reached; `pending` holds a file whose budget check
passed but whose goroutine has not yet taken its semaphore slot; `inflight`
are the running goroutines; `totalTokens` is the shared counter; `chunks`
are the strings written to `collectedContent` (one `WriteString` each, so
the final content is their concatenation); `stopped` records that the
dispatch loop hit `break`. -/
structure ProcState where
  queue : List GoFile
  pending : Option GoFile
  inflight : List GoFile
  totalTokens : Nat
  chunks : List GoStr
  stopped : Bool
deriving DecidableEq

/-- The state in which `collectFilesContent` starts its processing phase:
the whole candidate list queued, nothing running, the global `totalTokens`
at its zero value, the `strings.Builder` empty. -/
def initState (files : List GoFile) : ProcState :=
  { queue := files, pending := none, inflight := [], totalTokens := 0,
    chunks := [], stopped := false }

/-- The interleaving semantics of the processing phase. `checkOk` is the
dispatch loop passing its locked budget check for the next candidate;
`checkStop` is the same check failing, which `break`s the loop for good;
`spawn` is the goroutine starting once a semaphore slot (at most
`maxGoroutines` holders) is free. A finished worker merges under the mutex:
`mergeAccept` appends the file's text and adds its token count, and is only
enabled when `totalTokens + n ≤ maxTotalTokens` holds at that moment;
`mergeReject` discards the result when the check fails, leaving the counter
and content untouched; `mergeError` is a worker whose `processFile`
failed (logged, no merge). Any in-flight worker may merge, modelling the
racy completion order. -/
inductive Step (tok : GoStr → Nat) : ProcState → ProcState → Prop
  | checkOk (s : ProcState) (f : GoFile) (rest : List GoFile) :
      s.stopped = false → s.pending = none → s.queue = f :: rest →
      s.totalTokens < maxTotalTokens →
      Step tok s { s with queue := rest, pending := some f }
  | checkStop (s : ProcState) :
      s.stopped = false → s.pending = none → s.queue ≠ [] →
      maxTotalTokens ≤ s.totalTokens →
      Step tok s { s with stopped := true }
  | spawn (s : ProcState) (f : GoFile) :
      s.pending = some f → s.inflight.length < maxGoroutines →
      Step tok s { s with pending := none, inflight := s.inflight ++ [f] }
  | mergeAccept (s : ProcState) (l1 l2 : List GoFile) (f : GoFile) (text : GoStr) (n : Nat) :
      s.inflight = l1 ++ [f] ++ l2 →
      processFile tok f = .ok (text, n) →
      s.totalTokens + n ≤ maxTotalTokens →
      Step tok s { s with inflight := l1 ++ l2, chunks := s.chunks ++ [text],
                          totalTokens := s.totalTokens + n }
  | mergeReject (s : ProcState) (l1 l2 : List GoFile) (f : GoFile) (text : GoStr) (n : Nat) :
      s.inflight = l1 ++ [f] ++ l2 →
      processFile tok f = .ok (text, n) →
      maxTotalTokens < s.totalTokens + n →
      Step tok s { s with inflight := l1 ++ l2 }
  | mergeError (s : ProcState) (l1 l2 : List GoFile) (f : GoFile) (e : GoStr) :
      s.inflight = l1 ++ [f] ++ l2 →
      processFile tok f = .error e →
      Step tok s { s with inflight := l1 ++ l2 }

/-- All states reachable by interleaved steps. -/
def Reaches (tok : GoStr → Nat) : ProcState → ProcState → Prop :=
  Relation.ReflTransGen (Step tok)

/-- A state in which `wg.Wait()` has returned: the dispatch loop has ended
(queue exhausted or `break`), no dispatch is half-done, and every worker has
finished. -/
def Terminal (s : ProcState) : Prop :=
  (s.queue = [] ∨ s.stopped = true) ∧ s.pending = none ∧ s.inflight = []

/-- The inductive invariant of the processing phase: the counter respects
the budget, and the accumulated chunks are exactly the formatted texts of
some accepted files `acc`, whose token counts sum to the counter; together
with the waiting, pending, running and dropped files, `acc` accounts for
the candidate list as a multiset. -/
def ProcInv (tok : GoStr → Nat) (cands : List GoFile) (s : ProcState) : Prop :=
  s.totalTokens ≤ maxTotalTokens ∧
  ∃ acc dropped : List GoFile,
    (∀ f ∈ acc, ∃ n, processFile tok f = .ok (okText tok f, n)) ∧
    s.chunks = acc.map (okText tok) ∧
    s.totalTokens = (acc.map (okTok tok)).sum ∧
    (cands : Multiset GoFile) =
      (s.queue : Multiset GoFile) + (s.pending.toList : Multiset GoFile) +
      (s.inflight : Multiset GoFile) + (acc : Multiset GoFile) + (dropped : Multiset GoFile)


/-- Token-count model used by concrete instances: the length of the text
(the tokenizer is an opaque external collaborator, any function works). -/
def tokLen : GoStr → Nat := List.length

/-- A small text file used in concrete instances. -/
def wFile : GoFile :=
  { relPath := ("a.txt").toList, size := 3, content := [104, 105, 10],
    statErr := false, openErr := false, readErr := false }

/-- An oversized file (2000000 bytes > 1 MiB) whose open would even fail:
used to show the binary check is not reached. -/
def wBig : GoFile :=
  { relPath := ("big.bin").toList, size := 2000000, content := [65, 66],
    statErr := false, openErr := true, readErr := false }

/-- A small file with a NUL byte in its content. -/
def wBin : GoFile :=
  { relPath := ("img.png").toList, size := 3, content := [65, 0, 66],
    statErr := false, openErr := false, readErr := false }

/-- Initial processing state over the one-file candidate list `[wFile]`. -/
def c1s : ProcState := initState [wFile]

/-- The state after the dispatch loop passes its budget check for `wFile`. -/
def c1s2 : ProcState := { c1s with queue := [], pending := some wFile }

/-- A scan root whose first child directory fails to be read and whose
second child is an ordinary file. -/
def c4Tree : Entry :=
  .dir (("root").toList) false
    [.dir (("bad").toList) true [], .file (("b.txt").toList)]

/-- The exclusion-side per-pattern predicate in the spec's words: the
(well-formed) glob matches the base name, or the pattern is a literal
substring of the relative path. -/
def ignoreMatchSpec (path pat : GoStr) : Bool :=
  match filepathMatch pat (goBase path) with
  | none => false
  | some m => m || goContains path pat

/-- The inclusion-side per-pattern predicate in the spec's words as amended:
the (well-formed) glob matches the base name, or the path ends with the
literal pattern. -/
def includeMatchSpec (path pat : GoStr) : Bool :=
  match filepathMatch pat (goBase path) with
  | none => false
  | some m => m || goHasSuffix path pat

/-- The files a prefix of file frames contributes to the candidate list:
those neither ignored nor rejected by the include patterns. -/
def keptFiles (ign inc : List GoStr) (pre : List (GoStr × GoStr)) : List GoStr :=
  (pre.filter (fun p => !isIgnored p.2 ign && isIncluded p.2 inc)).map (fun p => p.2)

theorem okText_of_ok (tok : GoStr → Nat) (f : GoFile) (text : GoStr) (n : Nat)
    (h : processFile tok f = .ok (text, n)) : okText tok f = text := by
  simp [okText, h]

theorem okTok_of_ok (tok : GoStr → Nat) (f : GoFile) (text : GoStr) (n : Nat)
    (h : processFile tok f = .ok (text, n)) : okTok tok f = n := by
  simp [okTok, h]

theorem procInv_init (tok : GoStr → Nat) (cands : List GoFile) :
    ProcInv tok cands (initState cands) := by
  refine ⟨Nat.zero_le _, [], [], ?_, rfl, rfl, ?_⟩
  · intro f hf; cases hf
  · simp [initState]

theorem procInv_step (tok : GoStr → Nat) (cands : List GoFile) {s s' : ProcState}
    (hstep : Step tok s s') (hinv : ProcInv tok cands s) : ProcInv tok cands s' := by
  obtain ⟨hle, acc, dropped, hok, hchunks, htok, hms⟩ := hinv
  cases hstep with
  | checkOk f rest hst hp hq hlt =>
      refine ⟨hle, acc, dropped, hok, hchunks, htok, ?_⟩
      rw [hms, hq, hp]
      simp only [Option.toList, ← Multiset.cons_coe, ← Multiset.singleton_add,
        ← Multiset.coe_add, Multiset.coe_nil]
      abel
  | checkStop hst hp hq hge =>
      exact ⟨hle, acc, dropped, hok, hchunks, htok, hms⟩
  | spawn f hp hlen =>
      refine ⟨hle, acc, dropped, hok, hchunks, htok, ?_⟩
      rw [hms, hp]
      simp only [Option.toList, ← Multiset.cons_coe, ← Multiset.singleton_add,
        ← Multiset.coe_add, Multiset.coe_nil]
      abel
  | mergeAccept l1 l2 f text n hinf hproc hbound =>
      refine ⟨hbound, acc ++ [f], dropped, ?_, ?_, ?_, ?_⟩
      · intro g hg
        rcases List.mem_append.mp hg with hg | hg
        · exact hok g hg
        · rcases List.mem_singleton.mp hg with rfl
          exact ⟨n, by rw [okText_of_ok tok g text n hproc]; exact hproc⟩
      · rw [hchunks, List.map_append]
        simp [okText_of_ok tok f text n hproc]
      · rw [List.map_append, List.sum_append, htok]
        simp [okTok_of_ok tok f text n hproc]
      · rw [hms, hinf]
        simp only [Option.toList, ← Multiset.cons_coe, ← Multiset.singleton_add,
          ← Multiset.coe_add, Multiset.coe_nil]
        abel
  | mergeReject l1 l2 f text n hinf hproc hbound =>
      refine ⟨hle, acc, f :: dropped, hok, hchunks, htok, ?_⟩
      rw [hms, hinf]
      simp only [Option.toList, ← Multiset.cons_coe, ← Multiset.singleton_add,
        ← Multiset.coe_add, Multiset.coe_nil]
      abel
  | mergeError l1 l2 f e hinf hproc =>
      refine ⟨hle, acc, f :: dropped, hok, hchunks, htok, ?_⟩
      rw [hms, hinf]
      simp only [Option.toList, ← Multiset.cons_coe, ← Multiset.singleton_add,
        ← Multiset.coe_add, Multiset.coe_nil]
      abel

theorem procInv_reaches (tok : GoStr → Nat) (cands : List GoFile) {s : ProcState}
    (h : Reaches tok (initState cands) s) : ProcInv tok cands s := by
  induction h with
  | refl => exact procInv_init tok cands
  | tail _ hstep ih => exact procInv_step tok cands hstep ih

/-- C1: Budget merge is an atomic check-then-act: along every step of every
interleaving, `totalTokens` never decreases, and the accumulated chunks are
extended (by exactly the formatted text of one in-flight file, together with
the matching increment of `totalTokens`) only when
`totalTokens + tokenCount ≤ maxTotalTokens` held at the moment of that
merge step; every other step leaves counter and content unchanged. -/
theorem budget_merge_atomic (tok : GoStr → Nat) (s s' : ProcState)
    (h : Step tok s s') :
    s.totalTokens ≤ s'.totalTokens ∧
    (s'.chunks = s.chunks ∧ s'.totalTokens = s.totalTokens ∨
      ∃ f text n, f ∈ s.inflight ∧ processFile tok f = .ok (text, n) ∧
        s.totalTokens + n ≤ maxTotalTokens ∧
        s'.chunks = s.chunks ++ [text] ∧ s'.totalTokens = s.totalTokens + n) := by
  cases h with
  | checkOk f rest hst hp hq hlt => exact ⟨Nat.le_refl _, Or.inl ⟨rfl, rfl⟩⟩
  | checkStop hst hp hq hge => exact ⟨Nat.le_refl _, Or.inl ⟨rfl, rfl⟩⟩
  | spawn f hp hlen => exact ⟨Nat.le_refl _, Or.inl ⟨rfl, rfl⟩⟩
  | mergeAccept l1 l2 f text n hinf hproc hbound =>
      refine ⟨Nat.le_add_right _ _, Or.inr ⟨f, text, n, ?_, hproc, hbound, rfl, rfl⟩⟩
      rw [hinf]; simp
  | mergeReject l1 l2 f text n hinf hproc hbound => exact ⟨Nat.le_refl _, Or.inl ⟨rfl, rfl⟩⟩
  | mergeError l1 l2 f e hinf hproc => exact ⟨Nat.le_refl _, Or.inl ⟨rfl, rfl⟩⟩

theorem budget_merge_atomic_witness :
    c1s.totalTokens ≤ c1s2.totalTokens ∧
    (c1s2.chunks = c1s.chunks ∧ c1s2.totalTokens = c1s.totalTokens ∨
      ∃ f text n, f ∈ c1s.inflight ∧ processFile tokLen f = .ok (text, n) ∧
        c1s.totalTokens + n ≤ maxTotalTokens ∧
        c1s2.chunks = c1s.chunks ++ [text] ∧ c1s2.totalTokens = c1s.totalTokens + n) :=
  budget_merge_atomic tokLen c1s c1s2
    (Step.checkOk c1s wFile [] rfl rfl rfl (by decide))

/-- C9: Strict budget bound: in every state reachable by any interleaving of
the processing phase (hence also at the end of the run), the shared counter
`totalTokens` never exceeds `maxTotalTokens`, because the accept check is
evaluated under the lock before any increment. -/
theorem totalTokens_never_exceeds (tok : GoStr → Nat) (cands : List GoFile)
    (s : ProcState) (h : Reaches tok (initState cands) s) :
    s.totalTokens ≤ maxTotalTokens :=
  (procInv_reaches tok cands h).1

theorem totalTokens_never_exceeds_witness :
    (initState [wFile]).totalTokens ≤ maxTotalTokens :=
  totalTokens_never_exceeds tokLen [wFile] (initState [wFile]) Relation.ReflTransGen.refl

/-- C2: Bounded overshoot: in every reachable state of every interleaving
(in particular after all workers join), `totalTokens` is at most
`maxTotalTokens` plus the maximum token count among the files currently in
flight — the counter never grows unboundedly past the limit (the code in
fact satisfies the stronger bound of `totalTokens_never_exceeds`). -/
theorem totalTokens_bounded_overshoot (tok : GoStr → Nat) (cands : List GoFile)
    (s : ProcState) (h : Reaches tok (initState cands) s) :
    s.totalTokens ≤ maxTotalTokens + (s.inflight.map (okTok tok)).foldr Nat.max 0 :=
  Nat.le_trans (procInv_reaches tok cands h).1 (Nat.le_add_right _ _)

theorem totalTokens_bounded_overshoot_witness :
    (initState ([] : List GoFile)).totalTokens ≤
      maxTotalTokens + ((initState ([] : List GoFile)).inflight.map (okTok tokLen)).foldr Nat.max 0 :=
  totalTokens_bounded_overshoot tokLen [] (initState []) Relation.ReflTransGen.refl

/-- C10: In every terminal state of every interleaving, the accumulated
content is exactly the concatenation, in some order, of the complete
formatted texts of the budget-accepted files: some sublist `acc` of the
candidate multiset (each candidate at most once) whose `processFile`
succeeded, each accepted text forming one contiguous chunk, nothing else
interleaved, and `totalTokens` the sum of their token counts. -/
theorem content_is_accepted_concat (tok : GoStr → Nat) (cands : List GoFile)
    (s : ProcState) (h : Reaches tok (initState cands) s) (ht : Terminal s) :
    ∃ acc rest : List GoFile,
      cands.Perm (acc ++ rest) ∧
      (∀ f ∈ acc, ∃ n, processFile tok f = .ok (okText tok f, n)) ∧
      s.chunks = acc.map (okText tok) ∧
      s.chunks.flatten = (acc.map (okText tok)).flatten ∧
      s.totalTokens = (acc.map (okTok tok)).sum := by
  obtain ⟨hle, acc, dropped, hok, hchunks, htok, hms⟩ := procInv_reaches tok cands h
  obtain ⟨hq, hp, hi⟩ := ht
  refine ⟨acc, s.queue ++ dropped, ?_, hok, hchunks, by rw [hchunks], htok⟩
  rw [← Multiset.coe_eq_coe, hms, hp, hi]
  simp only [Option.toList, ← Multiset.cons_coe, ← Multiset.singleton_add,
    ← Multiset.coe_add, Multiset.coe_nil]
  abel

theorem content_is_accepted_concat_witness :
    ∃ acc rest : List GoFile,
      ([] : List GoFile).Perm (acc ++ rest) ∧
      (∀ f ∈ acc, ∃ n, processFile tokLen f = .ok (okText tokLen f, n)) ∧
      (initState ([] : List GoFile)).chunks = acc.map (okText tokLen) ∧
      (initState ([] : List GoFile)).chunks.flatten = (acc.map (okText tokLen)).flatten ∧
      (initState ([] : List GoFile)).totalTokens = (acc.map (okTok tokLen)).sum :=
  content_is_accepted_concat tokLen [] (initState [])
    Relation.ReflTransGen.refl ⟨Or.inl rfl, rfl, rfl⟩

theorem includedAny_eq_any (path : GoStr) (pats : List GoStr) :
    includedAny path pats = pats.any (includeMatchSpec path) := by
  induction pats with
  | nil => rfl
  | cons p ps ih =>
      cases hm : filepathMatch p (goBase path) with
      | none => simp [includedAny, includeMatchSpec, hm, ih]
      | some m =>
          cases hmc : (m || goHasSuffix path p) with
          | true => simp [includedAny, includeMatchSpec, hm, hmc]
          | false => simp [includedAny, includeMatchSpec, hm, hmc, ih]

/-- C3 (amended): matching semantics of the code. For exclusion, a pattern
matches iff its (well-formed) glob matches the path's base name or it is a
literal substring of the full relative path. For inclusion, a pattern
matches iff its (well-formed) glob matches the base name or the path ends
with the literal pattern — the substring test does NOT apply to inclusion;
a pattern whose glob is malformed matches nothing, and an empty include
list includes everything. -/
theorem matching_semantics (path : GoStr) (pats : List GoStr) :
    isIgnored path pats = pats.any (ignoreMatchSpec path) ∧
    isIncluded path pats = (pats.isEmpty || pats.any (includeMatchSpec path)) := by
  constructor
  · induction pats with
    | nil => rfl
    | cons p ps ih =>
        cases hm : filepathMatch p (goBase path) with
        | none => simp [isIgnored, ignoreMatchSpec, hm, ih]
        | some m =>
            cases hmc : (m || goContains path p) with
            | true => simp [isIgnored, ignoreMatchSpec, hm, hmc]
            | false => simp [isIgnored, ignoreMatchSpec, hm, hmc, ih]
  · cases pats with
    | nil => rfl
    | cons p ps => simp [isIncluded, includedAny_eq_any]

/-- C3 counterexample: the claim asserts `isIncluded` returns true for a
path containing the pattern as a non-suffix substring; for path
"src/main.go" and pattern "src" the glob on the base name is a well-formed
non-match, the pattern is a non-suffix substring of the path, and
`isIncluded` nevertheless returns false. -/
theorem substring_include_counterexample :
    goContains (("src/main.go").toList) (("src").toList) = true ∧
    goHasSuffix (("src/main.go").toList) (("src").toList) = false ∧
    filepathMatch (("src").toList) (goBase (("src/main.go").toList)) = some false ∧
    isIncluded (("src/main.go").toList) [("src").toList] = false := by decide

/-- C5 (amended): a pattern on which the glob matcher reports
`ErrBadPattern` against the path's base name is skipped entirely by the
scan — neither treated as a glob match nor tested as a literal substring or
suffix — and the scan continues with the remaining patterns instead of
aborting. -/
theorem malformed_pattern_skipped (path pat : GoStr) (rest : List GoStr)
    (h : filepathMatch pat (goBase path) = none) :
    isIgnored path (pat :: rest) = isIgnored path rest ∧
    includedAny path (pat :: rest) = includedAny path rest := by
  constructor
  · simp [isIgnored, h]
  · simp [includedAny, h]

theorem malformed_pattern_skipped_witness :
    isIgnored (("a[b").toList) [("[").toList, ("x").toList] =
      isIgnored (("a[b").toList) [("x").toList] ∧
    includedAny (("a[b").toList) [("[").toList, ("x").toList] =
      includedAny (("a[b").toList) [("x").toList] :=
  malformed_pattern_skipped (("a[b").toList) (("[").toList) [("x").toList] (by decide)

/-- C5 counterexample: the claim asserts a malformed glob pattern occurring
as a literal substring of a path still excludes that path; the pattern "["
is malformed (its glob errors on the base name), occurs literally in the
path "a[b", yet `isIgnored` returns false. -/
theorem malformed_substring_counterexample :
    filepathMatch (("[").toList) (goBase (("a[b").toList)) = none ∧
    goContains (("a[b").toList) (("[").toList) = true ∧
    isIgnored (("a[b").toList) [("[").toList] = false := by decide

/-- C6: Directory-level exclusion prunes the whole subtree: a directory
whose relative path matches an exclusion pattern contributes nothing to the
walk — the walker does not descend, so no file under it (whatever its
children, even ones matching an include pattern) is appended to the
candidate list or individually classified. -/
theorem excluded_dir_pruned (ign inc : List GoStr) (n : GoStr) (rErr : Bool)
    (children : List Entry) (rel : GoStr) (rest : List (Entry × GoStr)) (fuel : Nat)
    (h : isIgnored rel ign = true) :
    walkF ign inc (fuel + 1) ((Entry.dir n rErr children, rel) :: rest) =
      walkF ign inc fuel rest := by
  simp [walkF, h]

theorem excluded_dir_pruned_witness :
    walkF [("vendor").toList] [(".go").toList] (2 + 1)
        [(Entry.dir (("vendor").toList) false [Entry.file (("x.go").toList)],
          ("vendor").toList)] =
      walkF [("vendor").toList] [(".go").toList] 2 [] ∧
    walkF [("vendor").toList] [(".go").toList] 2 [] = ([], false) :=
  ⟨excluded_dir_pruned [("vendor").toList] [(".go").toList] (("vendor").toList) false
      [Entry.file (("x.go").toList)] (("vendor").toList) [] 2 (by decide),
   by decide⟩

/-- C7: Exclusion takes precedence over inclusion: a file whose relative
path matches an exclusion pattern and also matches an include pattern is
not appended to the candidate list (the walk callback returns before the
include check is consulted). -/
theorem excluded_file_skipped (ign inc : List GoStr) (n rel : GoStr)
    (rest : List (Entry × GoStr)) (fuel : Nat)
    (hig : isIgnored rel ign = true) (_hinc : isIncluded rel inc = true) :
    walkF ign inc (fuel + 1) ((Entry.file n, rel) :: rest) = walkF ign inc fuel rest := by
  simp [walkF, hig]

theorem excluded_file_skipped_witness :
    walkF [("vendor").toList] [(".go").toList] (1 + 1)
        [(Entry.file (("x.go").toList), ("vendor/x.go").toList)] =
      walkF [("vendor").toList] [(".go").toList] 1 [] ∧
    walkF [("vendor").toList] [(".go").toList] 1 [] = ([], false) :=
  ⟨excluded_file_skipped [("vendor").toList] [(".go").toList] (("x.go").toList)
      (("vendor/x.go").toList) [] 1 (by decide) (by decide),
   by decide⟩

/-- C8: Classification skip contract of `processFile`: a file whose stat
succeeds and whose size exceeds 1 MiB is skipped with an empty result, zero
tokens and no error regardless of its content or of whether opening it for
the binary check would even fail (the check is never performed); a file of
at most 1 MiB whose first 8000 content bytes contain a NUL is skipped as
binary, again with an empty result, zero tokens and no error. -/
theorem classifier_skips (tok : GoStr → Nat) (f : GoFile) :
    (f.statErr = false → maxFileSize < f.size → processFile tok f = .ok ([], 0)) ∧
    (f.statErr = false → f.openErr = false → f.size ≤ maxFileSize →
      (f.content.take 8000).any (fun b => b == 0) = true →
      processFile tok f = .ok ([], 0)) := by
  constructor
  · intro h1 h2
    simp [processFile, h1, h2]
  · intro h1 h2 h3 h4
    simp [processFile, h1, h2, h4, Nat.not_lt.mpr h3]

theorem classifier_skips_witness :
    processFile tokLen wBig = .ok ([], 0) ∧ processFile tokLen wBin = .ok ([], 0) :=
  ⟨(classifier_skips tokLen wBig).1 rfl (by decide),
   (classifier_skips tokLen wBin).2 rfl rfl (by decide) (by decide)⟩

/-- C4 counterexample: the claim asserts that files after a failing
directory still enter the candidate list; for a root whose first child
directory fails to read and whose second child is the file "b.txt" (no
patterns at all), the walk aborts and the candidate list is empty — "b.txt"
is never discovered. -/
theorem walk_error_counterexample :
    collectCandidates [] [] 10 c4Tree = ([], true) ∧
    ("b.txt").toList ∉ (collectCandidates [] [] 10 c4Tree).1 := by decide

/-- C4 (amended): an enumeration error (a read failure on a non-root, not
excluded directory) aborts the entire remaining walk — the error is logged
and discovery ends there: the candidates are exactly the files already
collected before the failing node (those neither ignored nor rejected by
the include patterns), and nothing after the failing node is discovered;
the run then proceeds on this partial candidate list. A failure at the
root likewise yields an empty candidate list. -/
theorem walk_error_aborts (ign inc : List GoStr) (pre : List (GoStr × GoStr))
    (n : GoStr) (children : List Entry) (rel : GoStr) (rest : List (Entry × GoStr))
    (fuel : Nat) (hfuel : pre.length + 1 ≤ fuel) (hrel : isIgnored rel ign = false) :
    walkF ign inc fuel
        (pre.map (fun p => (Entry.file p.1, p.2)) ++ (Entry.dir n true children, rel) :: rest) =
      (keptFiles ign inc pre, true) := by
  induction pre generalizing fuel with
  | nil =>
      obtain ⟨fuel, rfl⟩ : ∃ k, fuel = k + 1 := ⟨fuel - 1, by omega⟩
      simp [walkF, hrel, keptFiles]
  | cons p pre ih =>
      obtain ⟨fuel, rfl⟩ : ∃ k, fuel = k + 1 := ⟨fuel - 1, by omega⟩
      have hk : pre.length + 1 ≤ fuel := by
        simp only [List.length_cons] at hfuel; omega
      rw [List.map_cons, List.cons_append]
      cases hig : isIgnored p.2 ign with
      | true => simp [walkF, hig, ih fuel hk, keptFiles]
      | false =>
          cases hinc : isIncluded p.2 inc with
          | true => simp [walkF, hig, hinc, ih fuel hk, keptFiles]
          | false => simp [walkF, hig, hinc, ih fuel hk, keptFiles]

theorem walk_error_aborts_witness :
    walkF [] [] 2
        ([(("a.txt").toList, ("a.txt").toList)].map (fun p => (Entry.file p.1, p.2)) ++
          (Entry.dir (("bad").toList) true [], ("bad").toList) :: [(Entry.file (("b.txt").toList), ("b.txt").toList)]) =
      (keptFiles [] [] [(("a.txt").toList, ("a.txt").toList)], true) ∧
    keptFiles [] [] [(("a.txt").toList, ("a.txt").toList)] = [("a.txt").toList] :=
  ⟨walk_error_aborts [] [] [(("a.txt").toList, ("a.txt").toList)] (("bad").toList) []
      (("bad").toList) [(Entry.file (("b.txt").toList), ("b.txt").toList)] 2
      (by decide) (by decide),
   by decide⟩
